import Mathlib

/-!
Shallow embedding of the OLI error assistant's matching engine and KB store
(src/entrypoints/background.ts).  Strings are modelled as lists of characters
(`Str`); scores are rationals; JavaScript regular-expression testing
(`new RegExp(p, "i").test(s)`) is modelled by a small executable
backtracking engine over the subset of syntax the KB uses (literals,
escapes, `.`, `*`, `+`, `?`, leading `^`, trailing `$`); a pattern outside
this subset compiles to `none`, which the scoring code treats exactly as the
source's try/catch does: a non-match.
-/

namespace Oli

abbrev Str := List Char

/-- KBItem as declared at the top of background.ts. -/
structure KBItem where
  id : String
  title : String
  patterns : List String
  symptoms : Option String := none
  rootCause : Option String := none
  fixSteps : List String
  links : List (String × String) := []
  tags : List String := []
deriving DecidableEq, Repr

/-- MatchResult: an item paired with its score, as assembled by both listeners. -/
structure MatchResult where
  item : KBItem
  score : ℚ
deriving DecidableEq, Repr

/-- JavaScript whitespace (the ASCII part of the regex class \s). -/
def isJsWs (c : Char) : Bool :=
  c = ' ' || c = '\t' || c = '\n' || c = '\r' || c = '\x0b' || c = '\x0c'

/-- Replace each maximal run of whitespace by a single space:
the effect of .replace(/\s+/g, " "). -/
def collapseWs : Str → Str
  | [] => []
  | c :: cs =>
    if isJsWs c then
      match collapseWs cs with
      | [] => [' ']
      | d :: ds => if d = ' ' then d :: ds else ' ' :: d :: ds
    else c :: collapseWs cs

/-- JavaScript String.prototype.trim. -/
def trimChars (s : Str) : Str :=
  ((s.dropWhile isJsWs).reverse.dropWhile isJsWs).reverse

/-- normalize on character lists: toLowerCase, collapse whitespace, trim. -/
def normalizeChars (s : Str) : Str :=
  trimChars (collapseWs (s.map Char.toLower))

/-- normalize(s) from background.ts (the V2 listener's norm is the same code). -/
def normalize (s : String) : Str := normalizeChars s.data

/-- Does hay start with needle? -/
def startsWithStr : Str → Str → Bool
  | _, [] => true
  | [], _ :: _ => false
  | c :: cs, d :: ds => c = d && startsWithStr cs ds

/-- JavaScript hay.includes(needle): needle occurs as a contiguous substring. -/
def containsStr (hay needle : Str) : Bool :=
  match hay with
  | [] => startsWithStr [] needle
  | c :: cs => startsWithStr (c :: cs) needle || containsStr cs needle

/-- Characters kept by the tokenizers' splitting class [a-z0-9_]
(inputs are already lowercased by norm). -/
def isWordChar (c : Char) : Bool :=
  ('a' ≤ c && c ≤ 'z') || ('0' ≤ c && c ≤ '9') || c = '_'

/-- Split a string at every character satisfying sep (String.prototype.split
against a one-or-more separator regex, before filtering empties). -/
def splitSepAux (sep : Char → Bool) : Str → Str → List Str
  | [], acc => [acc.reverse]
  | c :: cs, acc =>
    if sep c then acc.reverse :: splitSepAux sep cs []
    else splitSepAux sep cs (c :: acc)

def splitSep (sep : Char → Bool) (s : Str) : List Str := splitSepAux sep s []

/-- Tokenize an already-normalized string: split on [^a-z0-9_]+, drop empties,
then split each token on "_" and drop empties (the flatMap in normTokenize
and in isSpecificTitle). -/
def tokensOfNorm (tn : Str) : List Str :=
  (((splitSep (fun c => !(isWordChar c)) tn).filter (fun t => t ≠ [])).map
    (fun t => (splitSep (fun c => c = '_') t).filter (fun u => u ≠ []))).flatten

/-- normTokenize from the V2 listener. -/
def normTokenize (s : String) : List Str := tokensOfNorm (normalize s)

/-- isSpecificTitle from the V2 listener (defined there but, notably,
never called by the exact-hit filter). -/
def isSpecificTitle (t : String) : Bool :=
  let tn := normalize t
  if tn = [] then false
  else decide (tn.length ≥ 18) || decide ((tokensOfNorm tn).length ≥ 3)

/-! Regular-expression engine: model of new RegExp(p, "i").test(s). -/

inductive RAtom where
  | lit : Char → RAtom
  | dot : RAtom
deriving DecidableEq, Repr

inductive QTok where
  | one : RAtom → QTok
  | star : RAtom → QTok
  | plus : RAtom → QTok
  | opt : RAtom → QTok
deriving DecidableEq, Repr

structure Regex where
  anchorStart : Bool
  anchorEnd : Bool
  toks : List QTok
deriving DecidableEq, Repr

/-- Case-insensitive single-character match (the "i" flag); dot excludes
line terminators as in JavaScript without the s flag. -/
def atomMatch (a : RAtom) (c : Char) : Bool :=
  match a with
  | RAtom.lit l => l.toLower = c.toLower
  | RAtom.dot => c ≠ '\n'

/-- Backtracking matcher, fuelled so that it is structurally recursive and
kernel-reducible.  Every recursive call strictly decreases
ts.length + s.length, so fuel ts.length + s.length + 1 never runs out. -/
def matchFuel : Nat → List QTok → Str → Bool → Bool
  | 0, _, _, _ => false
  | _ + 1, [], rest, endA => !endA || rest.isEmpty
  | _ + 1, QTok.one _ :: _, [], _ => false
  | n + 1, QTok.one a :: rest, c :: cs, endA =>
    atomMatch a c && matchFuel n rest cs endA
  | n + 1, QTok.opt _ :: rest, [], endA => matchFuel n rest [] endA
  | n + 1, QTok.opt a :: rest, c :: cs, endA =>
    matchFuel n rest (c :: cs) endA || (atomMatch a c && matchFuel n rest cs endA)
  | n + 1, QTok.star _ :: rest, [], endA => matchFuel n rest [] endA
  | n + 1, QTok.star a :: rest, c :: cs, endA =>
    matchFuel n rest (c :: cs) endA ||
      (atomMatch a c && matchFuel n (QTok.star a :: rest) cs endA)
  | _ + 1, QTok.plus _ :: _, [], _ => false
  | n + 1, QTok.plus a :: rest, c :: cs, endA =>
    atomMatch a c && matchFuel n (QTok.star a :: rest) cs endA

/-- Does some prefix of s match the token list (the whole of s when endA
demands an end anchor)? -/
def matchToks (ts : List QTok) (s : Str) (endA : Bool) : Bool :=
  matchFuel (ts.length + s.length + 1) ts s endA

/-- Try to match at every start position (an unanchored test). -/
def anySuffix (ts : List QTok) (endA : Bool) : Str → Bool
  | [] => matchToks ts [] endA
  | c :: cs => matchToks ts (c :: cs) endA || anySuffix ts endA cs

def regexTest (r : Regex) (s : Str) : Bool :=
  if r.anchorStart then matchToks r.toks s r.anchorEnd
  else anySuffix r.toks r.anchorEnd s

/-- Characters that are regex metacharacters for this engine. -/
def specialChars : List Char :=
  ['*', '+', '?', '(', ')', '[', ']', '{', '}', '|', '^', '$', '\\', '.']

/-- Parse one atom; syntax outside the supported subset fails the parse
(modelling a RegExp constructor throw, caught by the scoring code). -/
def parseAtom : Str → Option (RAtom × Str)
  | [] => none
  | '\\' :: [] => none
  | '\\' :: c :: rest => if c.isAlphanum then none else some (RAtom.lit c, rest)
  | '.' :: rest => some (RAtom.dot, rest)
  | c :: rest => if specialChars.contains c then none else some (RAtom.lit c, rest)

/-- Parse a token sequence, fuelled by the input length (each step consumes
at least one character, so fuel length+1 never runs out). -/
def parseToksFuel : Nat → Str → Option (List QTok)
  | 0, _ => none
  | _ + 1, [] => some []
  | n + 1, s =>
    match parseAtom s with
    | none => none
    | some (a, rest) =>
      match rest with
      | '*' :: r2 => (parseToksFuel n r2).map (fun ts => QTok.star a :: ts)
      | '+' :: r2 => (parseToksFuel n r2).map (fun ts => QTok.plus a :: ts)
      | '?' :: r2 => (parseToksFuel n r2).map (fun ts => QTok.opt a :: ts)
      | _ => (parseToksFuel n rest).map (fun ts => QTok.one a :: ts)

/-- Strip a trailing, unescaped $ anchor. -/
def stripDollar (p : Str) : Bool × Str :=
  match p.reverse with
  | '$' :: r =>
    match r with
    | '\\' :: _ => (false, p)
    | _ => (true, r.reverse)
  | _ => (false, p)

/-- Compile a pattern string; none models a RegExp constructor throw
(or syntax outside the modelled subset). -/
def compileRegex (p : Str) : Option Regex :=
  match p with
  | '^' :: rest =>
    let q := stripDollar rest
    (parseToksFuel (q.2.length + 1) q.2).map (fun ts => Regex.mk true q.1 ts)
  | _ =>
    let q := stripDollar p
    (parseToksFuel (q.2.length + 1) q.2).map (fun ts => Regex.mk false q.1 ts)

/-- new RegExp(p, "i").test(s), with compile failure read as a non-match
(the scoring code always wraps the test in try/catch). -/
def patternMatches (p : Str) (s : Str) : Bool :=
  match compileRegex p with
  | some r => regexTest r s
  | none => false

/-! Scoring (basic listener, OLI_MATCH_ERROR). -/

/-- scoreMatch from background.ts: any pattern testing true against the raw
text returns 1.0 immediately; otherwise normalized-title containment in the
normalized text (t.includes(title), guarded by title being non-empty) gives
0.85; otherwise 0. -/
def scoreMatch (errorText : String) (item : KBItem) : ℚ :=
  if item.patterns.any (fun p => patternMatches p.data errorText.data) then 1
  else if normalize item.title ≠ [] &&
      containsStr (normalize errorText) (normalize item.title) then 17 / 20
  else 0

/-! Scoring (V2 listener, OLI_MATCH_ERROR_V2). -/

/-- Trimmed patterns that the V2 pattern loop skips with continue:
blank, or a universal wildcard. -/
def isWildcardOrBlank (pp : Str) : Bool :=
  pp = [] || pp = ".*".data || pp = "^.*$".data

/-- The V2 pattern loop fires (sets 0.95 and breaks) exactly when some
pattern, after String(p).trim(), is neither blank nor a universal wildcard
and its compiled regex tests true against the raw error text. -/
def effPatternHit (patterns : List String) (e : String) : Bool :=
  patterns.any (fun p =>
    let pp := trimChars p.data
    !(isWildcardOrBlank pp) && patternMatches pp e.data)

/-- The fixed keyword vocabulary of the V2 listener. -/
def keywords : List Str :=
  ["house_number".data, "housenumber".data, "street".data, "address".data,
   "postal".data, "postcode".data, "zip".data,
   "city".data, "state".data, "province".data,
   "email".data, "phone".data,
   "weight".data, "dimension".data, "length".data, "width".data, "height".data,
   "sendcloud".data, "label".data, "carrier".data, "service".data,
   "hs".data, "hscode".data, "customs".data, "ddp".data, "dap".data, "cod".data,
   "country".data, "vat".data, "eori".data]

/-- The V2 keyword loop: count vocabulary entries k such that k or its
underscore-stripped form kk occurs in the error tokens, and likewise in the
title tokens. -/
def countHits (eTokens tTokens : List Str) : Nat :=
  (keywords.filter (fun k =>
    let kk := k.filter (fun c => c ≠ '_')
    (eTokens.contains k || eTokens.contains kk) &&
      (tTokens.contains k || tTokens.contains kk))).length

/-- Math.max on rationals (kernel-reducible). -/
def jsMax (a b : ℚ) : ℚ := if a ≤ b then b else a

/-- Math.min on rationals (kernel-reducible). -/
def jsMin (a b : ℚ) : ℚ := if a ≤ b then a else b

/-- The value of sc after the V2 pattern loop: 0.95 if it fired, else 0. -/
def patternSignal (e : String) (it : KBItem) : ℚ :=
  if effPatternHit it.patterns e then 19 / 20 else 0

/-- The value of sc after the V2 title-containment step: Math.max with 0.85
when tNorm is non-empty and norm(errorText).includes(tNorm). -/
def titleSignal (e : String) (it : KBItem) (sc : ℚ) : ℚ :=
  if normalize it.title ≠ [] && containsStr (normalize e) (normalize it.title) then
    jsMax sc (17 / 20)
  else sc

/-- The V2 keyword hit count for an entry. -/
def hitCount (e : String) (it : KBItem) : ℕ :=
  countHits (normTokenize e) (normTokenize it.title)

/-- The V2 per-entry score: sc starts at 0 and is raised by Math.max through
the pattern signal (0.95), the title-containment signal (0.85) and, when the
hit count is positive, the keyword-overlap signal
(0.55 + min(0.35, hits * 0.08)). -/
def scoreV2 (e : String) (it : KBItem) : ℚ :=
  if 0 < hitCount e it then
    jsMax (titleSignal e it (patternSignal e it))
      (11 / 20 + jsMin (7 / 20) ((hitCount e it : ℚ) * (2 / 25)))
  else titleSignal e it (patternSignal e it)

/-- The V2 exact-hit filter predicate: both normalized strings non-empty and
the title equals, contains, or is contained in the normalized error text.
(The source's isSpecificTitle guard is not consulted here.) -/
def exactTitleHit (e : String) (it : KBItem) : Bool :=
  if normalize it.title = [] || normalize e = [] then false
  else normalize it.title = normalize e ||
    containsStr (normalize it.title) (normalize e) ||
    containsStr (normalize e) (normalize it.title)

/-- exactHits from the V2 listener: filtered items, each paired with 1.0. -/
def exactHits (items : List KBItem) (e : String) : List MatchResult :=
  (items.filter (exactTitleHit e)).map (fun it => MatchResult.mk it 1)

/-! Ranking.  JavaScript's Array.prototype.sort with comparator
(a, b) => b.score - a.score is a stable descending sort; a stable
descending sort is modelled by insertion that passes an element only over
strictly greater scores. -/

def insertDesc (x : MatchResult) : List MatchResult → List MatchResult
  | [] => [x]
  | y :: ys => if x.score < y.score then y :: insertDesc x ys else x :: y :: ys

def sortDesc : List MatchResult → List MatchResult
  | [] => []
  | x :: xs => insertDesc x (sortDesc xs)

/-- The scored list in KB order, before filtering (basic listener). -/
def scoredBasic (items : List KBItem) (e : String) : List MatchResult :=
  items.map (fun it => MatchResult.mk it (scoreMatch e it))

/-- The basic listener's matches value: score, drop zeros, sort descending,
take 3. -/
def matchesBasic (items : List KBItem) (e : String) : List MatchResult :=
  (sortDesc ((scoredBasic items e).filter (fun r => decide (0 < r.score)))).take 3

/-- The scored list in KB order, before filtering (V2 listener). -/
def scoredV2 (items : List KBItem) (e : String) : List MatchResult :=
  items.map (fun it => MatchResult.mk it (scoreV2 e it))

/-- The V2 fuzzy list: drop zeros, sort descending, take 5. -/
def fuzzyV2 (items : List KBItem) (e : String) : List MatchResult :=
  (sortDesc ((scoredV2 items e).filter (fun r => decide (0 < r.score)))).take 5

/-- The V2 listener's matches value: exactHits when non-empty, else fuzzy. -/
def matchesV2 (items : List KBItem) (e : String) : List MatchResult :=
  if exactHits items e = [] then fuzzyV2 items e else exactHits items e

/-! KB store (getKB and its helpers).  Timestamps are integer epoch
milliseconds; the remote fetch outcome is a parameter: none models a throw
from loadRemote (network failure, non-ok status via the explicit throw, or
the administratively disabled empty URL), some l a decoded entry list.  The
bundled KB is a parameter, resolved as loadBundledKB's value.  The
persistent storage slot kb_cache is the one-field state. -/

structure CachedKB where
  updatedAt : Int
  items : List KBItem
deriving DecidableEq, Repr

structure KBState where
  cache : Option CachedKB
deriving DecidableEq, Repr

structure KBResult where
  items : List KBItem
  source : String
  updatedAt : Option Int := none
deriving DecidableEq, Repr

def CACHE_TTL_MINUTES : Int := 30

/-- cacheFresh from background.ts: age strictly below the TTL. -/
def cacheFresh (now : Int) (c : CachedKB) : Bool :=
  now - c.updatedAt < CACHE_TTL_MINUTES * 60 * 1000

/-- saveCache: overwrite the kb_cache slot with updatedAt = now. -/
def saveCache (now : Int) (items : List KBItem) (_st : KBState) : KBState :=
  KBState.mk (some (CachedKB.mk now items))

/-- The remote branch of getKB: on a decoded non-empty list, persist and
return it as remote; otherwise (throw, or null/empty decode) fall back to
the bundled KB without touching the cache. -/
def getKBRemote (now : Int) (remote : Option (List KBItem))
    (bundled : List KBItem) (st : KBState) : KBResult × KBState :=
  match remote with
  | some l =>
    if l ≠ [] then (KBResult.mk l "remote" (some now), saveCache now l st)
    else (KBResult.mk bundled "bundled" none, st)
  | none => (KBResult.mk bundled "bundled" none, st)

/-- getKB from background.ts: fresh non-empty cache wins; otherwise try the
remote; otherwise the bundled copy. -/
def getKB (now : Int) (remote : Option (List KBItem))
    (bundled : List KBItem) (st : KBState) : KBResult × KBState :=
  match st.cache with
  | some c =>
    if c.items ≠ [] && cacheFresh now c then
      (KBResult.mk c.items "cache" (some c.updatedAt), st)
    else getKBRemote now remote bundled st
  | none => getKBRemote now remote bundled st

/-! Lemmas about the stable descending sort. -/

theorem mem_insertDesc {x b : MatchResult} {l : List MatchResult} :
    b ∈ insertDesc x l ↔ b = x ∨ b ∈ l := by
  induction l with
  | nil => simp [insertDesc]
  | cons y ys ih =>
    by_cases h : x.score < y.score
    · simp only [insertDesc, if_pos h, List.mem_cons, ih]
      tauto
    · simp only [insertDesc, if_neg h, List.mem_cons]

theorem sortDesc_mem {b : MatchResult} {l : List MatchResult} :
    b ∈ sortDesc l ↔ b ∈ l := by
  induction l with
  | nil => simp [sortDesc]
  | cons x xs ih =>
    simp only [sortDesc, mem_insertDesc, ih, List.mem_cons]

theorem insertDesc_pairwise (x : MatchResult) (l : List MatchResult)
    (h : l.Pairwise (fun a b => b.score ≤ a.score)) :
    (insertDesc x l).Pairwise (fun a b => b.score ≤ a.score) := by
  induction l with
  | nil => simp [insertDesc]
  | cons y ys ih =>
    rw [List.pairwise_cons] at h
    by_cases hxy : x.score < y.score
    · rw [insertDesc, if_pos hxy, List.pairwise_cons]
      refine ⟨fun b hb => ?_, ih h.2⟩
      rcases mem_insertDesc.1 hb with hb | hb
      · exact hb ▸ le_of_lt hxy
      · exact h.1 b hb
    · rw [insertDesc, if_neg hxy, List.pairwise_cons]
      refine ⟨fun b hb => ?_, List.pairwise_cons.2 h⟩
      rcases List.mem_cons.1 hb with hb | hb
      · exact hb ▸ le_of_not_lt hxy
      · exact le_trans (h.1 b hb) (le_of_not_lt hxy)

theorem sortDesc_pairwise (l : List MatchResult) :
    (sortDesc l).Pairwise (fun a b => b.score ≤ a.score) := by
  induction l with
  | nil => simp [sortDesc]
  | cons x xs ih => exact insertDesc_pairwise x (sortDesc xs) ih

/-- Stability of the insertion step: restricting to any one score value, the
insertion places x exactly at the front of the untouched tie class. -/
theorem filter_insertDesc (c : ℚ) (x : MatchResult) (l : List MatchResult) :
    (insertDesc x l).filter (fun r => decide (r.score = c)) =
      (x :: l).filter (fun r => decide (r.score = c)) := by
  induction l with
  | nil => rfl
  | cons y ys ih =>
    by_cases hxy : x.score < y.score
    · rw [insertDesc, if_pos hxy]
      by_cases hx : x.score = c
      · have hy : ¬ y.score = c := fun hyc => absurd hxy (by rw [hx, hyc]; exact lt_irrefl c)
        simp [List.filter_cons, hx, hy, ih]
      · simp [List.filter_cons, hx, ih]
    · rw [insertDesc, if_neg hxy]

theorem filter_sortDesc (c : ℚ) (l : List MatchResult) :
    (sortDesc l).filter (fun r => decide (r.score = c)) =
      l.filter (fun r => decide (r.score = c)) := by
  induction l with
  | nil => rfl
  | cons x xs ih =>
    rw [sortDesc, filter_insertDesc, List.filter_cons, List.filter_cons, ih]

/-! Score-range lemmas. -/

theorem jsMax_le {a b c : ℚ} (ha : a ≤ c) (hb : b ≤ c) : jsMax a b ≤ c := by
  unfold jsMax; split <;> assumption

theorem jsMax_nonneg {a b : ℚ} (ha : 0 ≤ a) : 0 ≤ jsMax a b := by
  unfold jsMax; split
  · exact le_trans ha (by assumption)
  · exact ha

theorem le_jsMax_right {a b : ℚ} (h : a ≤ b) : jsMax a b = b := by
  unfold jsMax; exact if_pos h

theorem jsMin_le_left (a b : ℚ) : jsMin a b ≤ a := by
  unfold jsMin; split
  · exact le_refl a
  · exact le_of_not_le (by assumption)

theorem jsMin_nonneg {a b : ℚ} (ha : 0 ≤ a) (hb : 0 ≤ b) : 0 ≤ jsMin a b := by
  unfold jsMin; split <;> assumption

theorem scoreMatch_cases (e : String) (it : KBItem) :
    scoreMatch e it = 1 ∨ scoreMatch e it = 17 / 20 ∨ scoreMatch e it = 0 := by
  unfold scoreMatch
  split
  · exact Or.inl rfl
  · split
    · exact Or.inr (Or.inl rfl)
    · exact Or.inr (Or.inr rfl)

theorem patternSignal_range (e : String) (it : KBItem) :
    0 ≤ patternSignal e it ∧ patternSignal e it ≤ 1 := by
  unfold patternSignal; split <;> norm_num

theorem titleSignal_range (e : String) (it : KBItem) {sc : ℚ}
    (h0 : 0 ≤ sc) (h1 : sc ≤ 1) :
    0 ≤ titleSignal e it sc ∧ titleSignal e it sc ≤ 1 := by
  unfold titleSignal; split
  · exact ⟨jsMax_nonneg h0, jsMax_le h1 (by norm_num)⟩
  · exact ⟨h0, h1⟩

theorem scoreMatch_range (e : String) (it : KBItem) :
    0 ≤ scoreMatch e it ∧ scoreMatch e it ≤ 1 := by
  rcases scoreMatch_cases e it with h | h | h <;> rw [h] <;> norm_num

/-- The keyword-overlap term is between 0.55 and 0.9 for any hit count. -/
theorem kwTerm_range (n : ℕ) :
    0 ≤ 11 / 20 + jsMin (7 / 20) ((n : ℚ) * (2 / 25)) ∧
      11 / 20 + jsMin (7 / 20) ((n : ℚ) * (2 / 25)) ≤ 1 := by
  constructor
  · have h0 : (0 : ℚ) ≤ jsMin (7 / 20) ((n : ℚ) * (2 / 25)) :=
      jsMin_nonneg (by norm_num) (mul_nonneg (Nat.cast_nonneg n) (by norm_num))
    linarith
  · have h1 : jsMin (7 / 20) ((n : ℚ) * (2 / 25)) ≤ 7 / 20 := jsMin_le_left _ _
    linarith

theorem scoreV2_range (e : String) (it : KBItem) :
    0 ≤ scoreV2 e it ∧ scoreV2 e it ≤ 1 := by
  rcases patternSignal_range e it with ⟨h10, h11⟩
  rcases titleSignal_range e it h10 h11 with ⟨h20, h21⟩
  rcases kwTerm_range (hitCount e it) with ⟨hk0, hk1⟩
  unfold scoreV2
  split
  · exact ⟨jsMax_nonneg h20, jsMax_le h21 hk1⟩
  · exact ⟨h20, h21⟩

/-! Helpers connecting the ranked output to the scored list. -/

theorem mem_matchesBasic {r : MatchResult} {items : List KBItem} {e : String}
    (h : r ∈ matchesBasic items e) : ∃ it ∈ items, r = MatchResult.mk it (scoreMatch e it) := by
  have h1 := List.mem_of_mem_take h
  have h2 := sortDesc_mem.1 h1
  have h3 := List.mem_of_mem_filter h2
  obtain ⟨it, hit, heq⟩ := List.mem_map.1 h3
  exact ⟨it, hit, heq.symm⟩

theorem mem_fuzzyV2 {r : MatchResult} {items : List KBItem} {e : String}
    (h : r ∈ fuzzyV2 items e) : ∃ it ∈ items, r = MatchResult.mk it (scoreV2 e it) := by
  have h1 := List.mem_of_mem_take h
  have h2 := sortDesc_mem.1 h1
  have h3 := List.mem_of_mem_filter h2
  obtain ⟨it, hit, heq⟩ := List.mem_map.1 h3
  exact ⟨it, hit, heq.symm⟩

theorem mem_exactHits {r : MatchResult} {items : List KBItem} {e : String}
    (h : r ∈ exactHits items e) :
    ∃ it ∈ items, exactTitleHit e it = true ∧ r = MatchResult.mk it 1 := by
  obtain ⟨it, hit, heq⟩ := List.mem_map.1 h
  rcases List.mem_filter.1 hit with ⟨hmem, hpred⟩
  exact ⟨it, hmem, hpred, heq.symm⟩

theorem pairwise_of_all_one {l : List MatchResult} (h : ∀ r ∈ l, r.score = 1) :
    l.Pairwise (fun a b => b.score ≤ a.score) := by
  induction l with
  | nil => exact List.Pairwise.nil
  | cons x xs ih =>
    rw [List.pairwise_cons]
    refine ⟨fun b hb => ?_, ih (fun r hr => h r (List.mem_cons_of_mem x hr))⟩
    rw [h b (List.mem_cons_of_mem x hb), h x (List.mem_cons_self x xs)]

/-- The per-score-class restriction of a take-of-sorted list is a sublist of
the original scored list. -/
theorem filter_take_sortDesc_sublist (c : ℚ) (k : ℕ) (l : List MatchResult) :
    List.Sublist (((sortDesc l).take k).filter (fun r => decide (r.score = c)))
      (l.filter (fun r => decide (r.score = c))) := by
  have h1 : List.Sublist (((sortDesc l).take k).filter (fun r => decide (r.score = c)))
      ((sortDesc l).filter (fun r => decide (r.score = c))) :=
    (List.take_sublist k (sortDesc l)).filter _
  rw [filter_sortDesc] at h1
  exact h1

/-! Shared helper lemmas for the claim theorems. -/

theorem scoreMatch_eq_one_of_any {e : String} {it : KBItem}
    (h : ∃ p ∈ it.patterns, patternMatches p.data e.data = true) :
    scoreMatch e it = 1 := by
  unfold scoreMatch
  rw [if_pos (List.any_eq_true.2 h)]

/-- The universal wildcard pattern compiles and matches every string. -/
theorem patternMatches_wildcard (s : Str) : patternMatches (".*".data) s = true := by
  cases s <;> rfl

theorem scoreV2_congr (e : String) (it1 it2 : KBItem) (ht : it1.title = it2.title)
    (hp : effPatternHit it1.patterns e = effPatternHit it2.patterns e) :
    scoreV2 e it1 = scoreV2 e it2 := by
  unfold scoreV2 titleSignal patternSignal hitCount
  rw [ht, hp]

theorem scoreMatch_ext (e : String) (it1 it2 : KBItem) (ht : it1.title = it2.title)
    (hp : it1.patterns.any (fun q => patternMatches q.data e.data) =
      it2.patterns.any (fun q => patternMatches q.data e.data)) :
    scoreMatch e it1 = scoreMatch e it2 := by
  unfold scoreMatch
  rw [ht, hp]

theorem anyPattern_remove {e : String} {p : String} (ps1 ps2 : List String)
    (hb : compileRegex p.data = none) :
    (ps1 ++ p :: ps2).any (fun q => patternMatches q.data e.data) =
      (ps1 ++ ps2).any (fun q => patternMatches q.data e.data) := by
  have hm : patternMatches p.data e.data = false := by
    unfold patternMatches; rw [hb]
  simp only [List.any_append, List.any_cons, hm, Bool.false_or]

theorem effPatternHit_remove {e : String} {p : String} (ps1 ps2 : List String)
    (hv : compileRegex (trimChars p.data) = none) :
    effPatternHit (ps1 ++ p :: ps2) e = effPatternHit (ps1 ++ ps2) e := by
  have hm : patternMatches (trimChars p.data) e.data = false := by
    unfold patternMatches; rw [hv]
  simp only [effPatternHit, List.any_append, List.any_cons, hm, Bool.and_false,
    Bool.false_or]

theorem containsStr_nil_ne {t : Str} (h : t ≠ []) : containsStr [] t = false := by
  cases t with
  | nil => exact absurd rfl h
  | cons c cs => rfl

theorem scoreMatch_empty_zero (it : KBItem)
    (h : ∀ p ∈ it.patterns, patternMatches p.data [] = false) :
    scoreMatch "" it = 0 := by
  have hany : it.patterns.any (fun p => patternMatches p.data ("" : String).data) = false := by
    refine List.any_eq_false.2 (fun p hp => ?_)
    rw [show ("" : String).data = [] from rfl, h p hp]
    exact fun hc => nomatch hc
  have hcond : (decide (normalize it.title ≠ []) &&
      containsStr (normalize "") (normalize it.title)) = false := by
    by_cases hn : normalize it.title = []
    · simp [hn]
    · have hc : containsStr (normalize "") (normalize it.title) = false := by
        rw [show normalize "" = [] from rfl]
        exact containsStr_nil_ne hn
      simp [hc]
  unfold scoreMatch
  rw [hany, hcond]
  simp

theorem scoreV2_empty_zero (it : KBItem)
    (h : ∀ p ∈ it.patterns, patternMatches (trimChars p.data) [] = false) :
    scoreV2 "" it = 0 := by
  have heff : effPatternHit it.patterns "" = false := by
    unfold effPatternHit
    refine List.any_eq_false.2 (fun p hp => ?_)
    rw [show ("" : String).data = [] from rfl]
    simp [h p hp]
  have hhit : hitCount "" it = 0 := rfl
  have hps : patternSignal "" it = 0 := by
    unfold patternSignal; rw [heff]; rfl
  have hts : titleSignal "" it 0 = 0 := by
    unfold titleSignal
    by_cases hn : normalize it.title = []
    · simp [hn]
    · have hc : containsStr (normalize "") (normalize it.title) = false := by
        rw [show normalize "" = [] from rfl]
        exact containsStr_nil_ne hn
      simp [hc]
  unfold scoreV2
  rw [hhit, hps, hts]
  simp

theorem exactHits_empty_text (items : List KBItem) : exactHits items "" = [] := by
  unfold exactHits
  rw [List.filter_eq_nil_iff.2, List.map_nil]
  intro it hit
  unfold exactTitleHit
  rw [show normalize "" = [] from rfl]
  simp

/-! Claim theorems. -/

/-- C4: for every KB snapshot and error text, every score in the match list
returned by either matching entry point lies in [0,1], the returned list is
sorted non-increasingly by score, and ties are kept in the original KB
snapshot order (each score class of the output, projected to items, is a
sublist of the snapshot). -/
theorem ranked_output_invariants (items : List KBItem) (e : String) :
    ((∀ r ∈ matchesBasic items e, 0 ≤ r.score ∧ r.score ≤ 1) ∧
      (matchesBasic items e).Pairwise (fun a b => b.score ≤ a.score) ∧
      ∀ c : ℚ, List.Sublist
        (((matchesBasic items e).filter (fun r => decide (r.score = c))).map
          (fun r => r.item)) items) ∧
    ((∀ r ∈ matchesV2 items e, 0 ≤ r.score ∧ r.score ≤ 1) ∧
      (matchesV2 items e).Pairwise (fun a b => b.score ≤ a.score) ∧
      ∀ c : ℚ, List.Sublist
        (((matchesV2 items e).filter (fun r => decide (r.score = c))).map
          (fun r => r.item)) items) := by
  have hmapBasic : (scoredBasic items e).map (fun r => r.item) = items := by
    simp only [scoredBasic, List.map_map]
    exact List.map_id items
  have hmapV2 : (scoredV2 items e).map (fun r => r.item) = items := by
    simp only [scoredV2, List.map_map]
    exact List.map_id items
  refine ⟨⟨?_, ?_, ?_⟩, ?_⟩
  · intro r hr
    obtain ⟨it, _, rfl⟩ := mem_matchesBasic hr
    exact scoreMatch_range e it
  · exact (sortDesc_pairwise _).sublist (List.take_sublist _ _)
  · intro c
    have h1 := filter_take_sortDesc_sublist c 3
      ((scoredBasic items e).filter (fun r => decide (0 < r.score)))
    have h2 : List.Sublist
        (((scoredBasic items e).filter (fun r => decide (0 < r.score))).filter
          (fun r => decide (r.score = c)))
        ((scoredBasic items e).filter (fun r => decide (r.score = c))) :=
      (List.filter_sublist _).filter _
    have h3 : List.Sublist ((scoredBasic items e).filter (fun r => decide (r.score = c)))
        (scoredBasic items e) := List.filter_sublist _
    have h4 := ((h1.trans h2).trans h3).map (fun r => r.item)
    rw [hmapBasic] at h4
    exact h4
  · by_cases hex : exactHits items e = []
    · rw [matchesV2, if_pos hex]
      refine ⟨?_, ?_, ?_⟩
      · intro r hr
        obtain ⟨it, _, rfl⟩ := mem_fuzzyV2 hr
        exact scoreV2_range e it
      · exact (sortDesc_pairwise _).sublist (List.take_sublist _ _)
      · intro c
        have h1 := filter_take_sortDesc_sublist c 5
          ((scoredV2 items e).filter (fun r => decide (0 < r.score)))
        have h2 : List.Sublist
            (((scoredV2 items e).filter (fun r => decide (0 < r.score))).filter
              (fun r => decide (r.score = c)))
            ((scoredV2 items e).filter (fun r => decide (r.score = c))) :=
          (List.filter_sublist _).filter _
        have h3 : List.Sublist ((scoredV2 items e).filter (fun r => decide (r.score = c)))
            (scoredV2 items e) := List.filter_sublist _
        have h4 := ((h1.trans h2).trans h3).map (fun r => r.item)
        rw [hmapV2] at h4
        exact h4
    · rw [matchesV2, if_neg hex]
      have hone : ∀ r ∈ exactHits items e, r.score = 1 := by
        intro r hr
        obtain ⟨it, _, _, rfl⟩ := mem_exactHits hr
        rfl
      refine ⟨?_, pairwise_of_all_one hone, ?_⟩
      · intro r hr
        rw [hone r hr]
        norm_num
      · intro c
        have h1 : List.Sublist
            ((exactHits items e).filter (fun r => decide (r.score = c)))
            (exactHits items e) := List.filter_sublist _
        have h2 := h1.map (fun r => r.item)
        have h3 : (exactHits items e).map (fun r => r.item) =
            items.filter (exactTitleHit e) := by
          simp only [exactHits, List.map_map]
          exact List.map_id _
        rw [h3] at h2
        exact h2.trans (List.filter_sublist _)

/-- Witness for ranked_output_invariants at a concrete snapshot and query. -/
theorem ranked_output_invariants_witness :
    (matchesBasic [KBItem.mk "e1" "Invalid postal code for carrier"
        ["invalid postcode"] none none ["x"] [] []]
      "SendCloud label creation failed: invalid postcode").Pairwise
      (fun a b => b.score ≤ a.score) ∧
    (matchesV2 [KBItem.mk "e1" "Invalid postal code for carrier"
        ["invalid postcode"] none none ["x"] [] []]
      "SendCloud label creation failed: invalid postcode").Pairwise
      (fun a b => b.score ≤ a.score) :=
  ⟨(ranked_output_invariants _ _).1.2.1, (ranked_output_invariants _ _).2.2.1⟩

/-- C1 (amended): in the refined entry point an entry is an exact hit exactly
when its normalized title and the normalized error text are both non-empty
and the title equals, is a substring of, or contains the normalized error
text — the isSpecificTitle non-triviality guard is defined in the source but
not consulted; every exact hit receives score 1.0; and when at least one
exact hit exists, the response is exactly the full list of exact hits (fuzzy
suppressed, with no limit applied to the exact list). -/
theorem exactHits_characterization (items : List KBItem) (e : String) :
    (∀ it : KBItem, (∃ r ∈ exactHits items e, r.item = it) ↔
        it ∈ items ∧ exactTitleHit e it = true) ∧
    (∀ it : KBItem, exactTitleHit e it = true ↔
        (normalize it.title ≠ [] ∧ normalize e ≠ [] ∧
          (normalize it.title = normalize e ∨
            containsStr (normalize it.title) (normalize e) = true ∨
            containsStr (normalize e) (normalize it.title) = true))) ∧
    (∀ r ∈ exactHits items e, r.score = 1) ∧
    (exactHits items e ≠ [] → matchesV2 items e = exactHits items e) := by
  refine ⟨?_, ?_, ?_, ?_⟩
  · intro it
    constructor
    · rintro ⟨r, hr, hri⟩
      obtain ⟨a, ha, hpred, rfl⟩ := mem_exactHits hr
      cases hri
      exact ⟨ha, hpred⟩
    · rintro ⟨hmem, hpred⟩
      exact ⟨MatchResult.mk it 1,
        List.mem_map.2 ⟨it, List.mem_filter.2 ⟨hmem, hpred⟩, rfl⟩, rfl⟩
  · intro it
    unfold exactTitleHit
    by_cases h1 : normalize it.title = [] <;> by_cases h2 : normalize e = [] <;>
      simp [h1, h2] <;> tauto
  · intro r hr
    obtain ⟨a, _, _, rfl⟩ := mem_exactHits hr
    rfl
  · intro hne
    rw [matchesV2, if_neg hne]

/-- C1 counterexample: with KB entry titled "Error" (normalized length 5,
one token — not specific by the source's own isSpecificTitle) and error
text "error in checkout", the entry is classified as an exact hit; moreover
with six entries whose titles equal the error text, all six are returned,
exceeding the claimed limit of 5. -/
theorem exactHit_trivial_title_and_no_limit :
    (MatchResult.mk (KBItem.mk "e" "Error" ["zzz"] none none ["f"] [] []) 1 ∈
        exactHits [KBItem.mk "e" "Error" ["zzz"] none none ["f"] [] []]
          "error in checkout" ∧
      isSpecificTitle "Error" = false) ∧
    (matchesV2
        [KBItem.mk "e1" "Unable to create shipping label" ["zzz"] none none ["f"] [] [],
         KBItem.mk "e2" "Unable to create shipping label" ["zzz"] none none ["f"] [] [],
         KBItem.mk "e3" "Unable to create shipping label" ["zzz"] none none ["f"] [] [],
         KBItem.mk "e4" "Unable to create shipping label" ["zzz"] none none ["f"] [] [],
         KBItem.mk "e5" "Unable to create shipping label" ["zzz"] none none ["f"] [] [],
         KBItem.mk "e6" "Unable to create shipping label" ["zzz"] none none ["f"] [] []]
        "Unable to create shipping label").length = 6 := by
  constructor
  · exact ⟨by decide, by decide⟩
  · decide

/-- Witness for exactHits_characterization: a concrete exact hit suppresses
the fuzzy tier. -/
theorem exactHits_characterization_witness :
    matchesV2 [KBItem.mk "w" "Unable to create shipping label" ["zzz"] none none ["f"] [] []]
        "unable to create shipping label" =
      exactHits [KBItem.mk "w" "Unable to create shipping label" ["zzz"] none none ["f"] [] []]
        "unable to create shipping label" :=
  (exactHits_characterization _ _).2.2.2 (by decide)

/-- C2 (amended): in the basic entry point (OLI_MATCH_ERROR), an entry with
at least one pattern whose case-insensitive test against the raw error text
succeeds scores 1.0 (the source returns 1.0, not 0.95, in this tier). -/
theorem basic_pattern_score_one (e : String) (it : KBItem)
    (h : ∃ p ∈ it.patterns, patternMatches p.data e.data = true) :
    scoreMatch e it = 1 :=
  scoreMatch_eq_one_of_any h

/-- C2 counterexample: the claimed concrete example scores 1.0, not 0.95. -/
theorem basic_pattern_score_not_095 :
    scoreMatch "SendCloud label creation failed: invalid postcode"
        (KBItem.mk "e1" "Invalid postal code for carrier" ["invalid postcode"]
          none none ["x"] [] []) = 1 ∧
      (1 : ℚ) ≠ 19 / 20 :=
  ⟨by decide, by norm_num⟩

/-- Witness for basic_pattern_score_one on the spec's concrete example. -/
theorem basic_pattern_score_one_witness :
    scoreMatch "SendCloud label creation failed: invalid postcode"
      (KBItem.mk "e1" "Invalid postal code for carrier" ["invalid postcode"]
        none none ["x"] [] []) = 1 :=
  basic_pattern_score_one _ _ ⟨"invalid postcode", by decide, by decide⟩

/-- C3 (amended): in the refined entry point, patterns that trim to a
universal wildcard (or blank) are skipped, so an entry whose patterns are
all wildcards or blanks scores exactly as if it had no patterns (title or
keyword signal only); in the basic entry point, however, the wildcard is
not filtered: a pattern ".*" matches every error text and scores the entry
1.0. -/
theorem wildcard_pattern_behavior :
    (∀ (e : String) (it : KBItem),
        (∀ p ∈ it.patterns, isWildcardOrBlank (trimChars p.data) = true) →
        scoreV2 e it = scoreV2 e { it with patterns := [] }) ∧
    (∀ (e : String) (it : KBItem), ".*" ∈ it.patterns → scoreMatch e it = 1) := by
  constructor
  · intro e it h
    refine scoreV2_congr e it _ rfl ?_
    have h1 : effPatternHit it.patterns e = false := by
      unfold effPatternHit
      refine List.any_eq_false.2 (fun p hp => ?_)
      simp [h p hp]
    have h2 : effPatternHit (({ it with patterns := [] } : KBItem)).patterns e = false := rfl
    rw [h1, h2]
  · intro e it hmem
    exact scoreMatch_eq_one_of_any ⟨".*", hmem, patternMatches_wildcard e.data⟩

/-- C3 counterexample: in the basic entry point a wildcard-only entry scores
1.0 on arbitrary text even though its title is not contained and the basic
tier has no keyword signal — the wildcard alone produced the score. -/
theorem wildcard_scores_one_in_basic :
    scoreMatch "boom" (KBItem.mk "g" "Generic" [".*"] none none ["f"] [] []) = 1 ∧
      containsStr (normalize "boom") (normalize "Generic") = false ∧
      (1 : ℚ) ≠ 0 :=
  ⟨by decide, by decide, by norm_num⟩

/-- Witness for wildcard_pattern_behavior at concrete inputs. -/
theorem wildcard_pattern_behavior_witness :
    scoreV2 "anything"
        (KBItem.mk "w" "Some title" [".*", "^.*$"] none none ["f"] [] []) =
      scoreV2 "anything"
        ({ KBItem.mk "w" "Some title" [".*", "^.*$"] none none ["f"] [] [] with
          patterns := [] }) ∧
      scoreMatch "boom" (KBItem.mk "g2" "Generic" [".*"] none none ["f"] [] []) = 1 :=
  ⟨wildcard_pattern_behavior.1 _ _ (by decide),
    wildcard_pattern_behavior.2 _ _ (by decide)⟩

/-- C7: in the refined entry point, when neither the pattern signal nor the
title-containment signal fires and the keyword hit count is n >= 1, the
entry's score is exactly 0.55 + min(0.35, n * 0.08). -/
theorem keyword_overlap_score (e : String) (it : KBItem) (n : Nat)
    (hp : effPatternHit it.patterns e = false)
    (ht : (decide (normalize it.title ≠ []) &&
      containsStr (normalize e) (normalize it.title)) = false)
    (hn : hitCount e it = n) (h1 : 1 ≤ n) :
    scoreV2 e it = 11 / 20 + jsMin (7 / 20) ((n : ℚ) * (2 / 25)) := by
  have hps : patternSignal e it = 0 := by
    unfold patternSignal
    rw [hp]
    rfl
  have hts : titleSignal e it 0 = 0 := by
    unfold titleSignal
    rw [ht]
    rfl
  unfold scoreV2
  rw [hn, if_pos (by omega : 0 < n), hps, hts]
  exact le_jsMax_right (kwTerm_range n).1

/-- Witness for keyword_overlap_score: the spec's concrete example (error
text containing "postcode" and "address", title containing "address" only)
scores 0.63. -/
theorem keyword_overlap_score_witness :
    scoreV2 "postcode and address mismatch"
      (KBItem.mk "a" "Wrong address format" ["qqqzzz"] none none ["f"] [] []) = 63 / 100 := by
  have h := keyword_overlap_score "postcode and address mismatch"
    (KBItem.mk "a" "Wrong address format" ["qqqzzz"] none none ["f"] [] []) 1
    (by decide) (by decide) (by decide) (by norm_num)
  rw [h]
  norm_num [jsMin]

/-- C8 (amended): matching the empty error text returns an empty list from
both entry points, provided no entry has a pattern whose raw or trimmed
form tests true against the empty string (a universal wildcard, for
example, does match the empty string and is not filtered in the basic
tier). -/
theorem empty_text_no_matches (items : List KBItem)
    (h : ∀ it ∈ items, ∀ p ∈ it.patterns,
      patternMatches p.data [] = false ∧ patternMatches (trimChars p.data) [] = false) :
    matchesBasic items "" = [] ∧ matchesV2 items "" = [] := by
  constructor
  · rw [matchesBasic]
    have hf : (scoredBasic items "").filter (fun r => decide (0 < r.score)) = [] := by
      refine List.filter_eq_nil_iff.2 (fun r hr => ?_)
      obtain ⟨it, hit, heq⟩ := List.mem_map.1 hr
      have hz : scoreMatch "" it = 0 :=
        scoreMatch_empty_zero it (fun p hp => (h it hit p hp).1)
      rw [← heq]
      simp [hz]
    rw [hf]
    rfl
  · have hex : exactHits items "" = [] := exactHits_empty_text items
    rw [matchesV2, if_pos hex, fuzzyV2]
    have hf : (scoredV2 items "").filter (fun r => decide (0 < r.score)) = [] := by
      refine List.filter_eq_nil_iff.2 (fun r hr => ?_)
      obtain ⟨it, hit, heq⟩ := List.mem_map.1 hr
      have hz : scoreV2 "" it = 0 :=
        scoreV2_empty_zero it (fun p hp => (h it hit p hp).2)
      rw [← heq]
      simp [hz]
    rw [hf]
    rfl

/-- C8 counterexample: a wildcard pattern matches the empty error text in
the basic entry point, so the basic match list is not empty. -/
theorem empty_text_wildcard_match :
    matchesBasic [KBItem.mk "g" "Generic" [".*"] none none ["f"] [] []] "" =
      [MatchResult.mk (KBItem.mk "g" "Generic" [".*"] none none ["f"] [] []) 1] := by
  decide

/-- Witness for empty_text_no_matches at a concrete snapshot whose only
pattern does not match the empty string. -/
theorem empty_text_no_matches_witness :
    matchesBasic [KBItem.mk "e1" "Invalid postal code for carrier"
        ["invalid postcode"] none none ["x"] [] []] "" = [] ∧
      matchesV2 [KBItem.mk "e1" "Invalid postal code for carrier"
        ["invalid postcode"] none none ["x"] [] []] "" = [] :=
  empty_text_no_matches _ (by decide)

/-- C9: a pattern that fails to compile is a non-match only: removing it
from an entry's pattern list changes neither the basic nor the refined
score of that entry, and scoring is computed entry-pointwise, so all other
entries' scored results are untouched. -/
theorem malformed_pattern_skipped (e : String) (it : KBItem)
    (ps1 ps2 : List String) (p : String)
    (hb : compileRegex p.data = none) (hv : compileRegex (trimChars p.data) = none) :
    scoreMatch e { it with patterns := ps1 ++ p :: ps2 } =
      scoreMatch e { it with patterns := ps1 ++ ps2 } ∧
    scoreV2 e { it with patterns := ps1 ++ p :: ps2 } =
      scoreV2 e { it with patterns := ps1 ++ ps2 } ∧
    (∀ (pre post : List KBItem) (bad : KBItem),
      scoredBasic (pre ++ bad :: post) e =
        scoredBasic pre e ++ MatchResult.mk bad (scoreMatch e bad) :: scoredBasic post e ∧
      scoredV2 (pre ++ bad :: post) e =
        scoredV2 pre e ++ MatchResult.mk bad (scoreV2 e bad) :: scoredV2 post e) := by
  refine ⟨?_, ?_, ?_⟩
  · exact scoreMatch_ext e _ _ rfl (anyPattern_remove ps1 ps2 hb)
  · exact scoreV2_congr e _ _ rfl (effPatternHit_remove ps1 ps2 hv)
  · intro pre post bad
    constructor <;> simp [scoredBasic, scoredV2]

/-- Witness for malformed_pattern_skipped: "(" does not compile; with it
present the entry still scores via its remaining pattern. -/
theorem malformed_pattern_skipped_witness :
    scoreMatch "SendCloud: invalid postcode"
        { KBItem.mk "e1" "T" [] none none ["x"] [] [] with
          patterns := ["(", "invalid postcode"] } =
      scoreMatch "SendCloud: invalid postcode"
        { KBItem.mk "e1" "T" [] none none ["x"] [] [] with
          patterns := ["invalid postcode"] } :=
  (malformed_pattern_skipped "SendCloud: invalid postcode"
    (KBItem.mk "e1" "T" [] none none ["x"] [] []) [] ["invalid postcode"] "("
    (by decide) (by decide)).1

theorem getKBRemote_fail (now : Int) (remote : Option (List KBItem))
    (bundled : List KBItem) (st : KBState) (h : remote = none ∨ remote = some []) :
    getKBRemote now remote bundled st = (KBResult.mk bundled "bundled" none, st) := by
  rcases h with h | h <;> subst h <;> rfl

theorem getKBRemote_frame (now : Int) (remote : Option (List KBItem))
    (bundled : List KBItem) (st : KBState) :
    ((getKBRemote now remote bundled st).2 ≠ st →
      ∃ l, remote = some l ∧ l ≠ [] ∧
        (getKBRemote now remote bundled st).1.source = "remote" ∧
        (getKBRemote now remote bundled st).2 = KBState.mk (some (CachedKB.mk now l))) ∧
    ((getKBRemote now remote bundled st).1.source ≠ "remote" →
      (getKBRemote now remote bundled st).2 = st) := by
  cases remote with
  | none => exact ⟨fun h => absurd rfl h, fun _ => rfl⟩
  | some l =>
    by_cases hl : l = []
    · subst hl
      exact ⟨fun h => absurd rfl h, fun _ => rfl⟩
    · have he : getKBRemote now (some l) bundled st =
          (KBResult.mk l "remote" (some now), KBState.mk (some (CachedKB.mk now l))) := by
        simp [getKBRemote, saveCache, hl]
      rw [he]
      exact ⟨fun _ => ⟨l, rfl, hl, rfl, rfl⟩, fun h => absurd rfl h⟩

/-- C5: a present, non-empty cache snapshot strictly younger than the
30-minute TTL is returned with source "cache" and its own updatedAt, the
state is unchanged, and the result does not depend on the remote fetch
outcome or the bundled KB (no network fetch is attempted). -/
theorem getKB_fresh_cache (now : Int) (remote remote2 : Option (List KBItem))
    (bundled bundled2 : List KBItem) (st : KBState) (c : CachedKB)
    (hc : st.cache = some c) (hne : c.items ≠ []) (hf : cacheFresh now c = true) :
    getKB now remote bundled st = (KBResult.mk c.items "cache" (some c.updatedAt), st) ∧
    getKB now remote bundled st = getKB now remote2 bundled2 st := by
  have hcond : (decide (c.items ≠ []) && cacheFresh now c) = true := by
    rw [hf]
    simp [hne]
  obtain ⟨stc⟩ := st
  rw [show (KBState.mk stc).cache = stc from rfl] at hc
  subst hc
  constructor
  · simp [getKB, hne, hf]
  · simp [getKB, hne, hf]

/-- Witness for getKB_fresh_cache: a cache written 10 minutes ago is served
as cache regardless of the remote outcome. -/
theorem getKB_fresh_cache_witness :
    getKB 1800000000 none []
        (KBState.mk (some (CachedKB.mk 1799400000
          [KBItem.mk "c" "Cached entry" ["p"] none none ["f"] [] []]))) =
      (KBResult.mk [KBItem.mk "c" "Cached entry" ["p"] none none ["f"] [] []]
        "cache" (some 1799400000),
       KBState.mk (some (CachedKB.mk 1799400000
          [KBItem.mk "c" "Cached entry" ["p"] none none ["f"] [] []]))) :=
  (getKB_fresh_cache 1800000000 none none [] [] _ _ rfl (by decide) (by decide)).1

/-- C6: with an absent, empty or expired cache and a failing remote fetch
(throw, or an empty decoded list — including the administratively disabled
URL, which throws), getKB returns the bundled snapshot with source
"bundled" and no updatedAt, leaves the state unchanged, and, being a total
function, propagates no failure. -/
theorem getKB_bundled_fallback (now : Int) (remote : Option (List KBItem))
    (bundled : List KBItem) (st : KBState)
    (hcache : st.cache = none ∨
      ∃ c, st.cache = some c ∧ (c.items = [] ∨ cacheFresh now c = false))
    (hremote : remote = none ∨ remote = some []) :
    getKB now remote bundled st = (KBResult.mk bundled "bundled" none, st) := by
  obtain ⟨stc⟩ := st
  rcases hcache with h | ⟨c, hc, hbad⟩
  · rw [show (KBState.mk stc).cache = stc from rfl] at h
    subst h
    exact getKBRemote_fail now remote bundled _ hremote
  · rw [show (KBState.mk stc).cache = stc from rfl] at hc
    subst hc
    have h2 : getKB now remote bundled (KBState.mk (some c)) =
        getKBRemote now remote bundled (KBState.mk (some c)) := by
      rcases hbad with hb | hb <;> simp [getKB, hb]
    rw [h2]
    exact getKBRemote_fail now remote bundled _ hremote

/-- Witness for getKB_bundled_fallback: expired cache plus a fetch that
throws yields the bundled snapshot. -/
theorem getKB_bundled_fallback_witness :
    getKB 1800000000 none [KBItem.mk "b" "Bundled entry" ["p"] none none ["f"] [] []]
        (KBState.mk (some (CachedKB.mk 0
          [KBItem.mk "c" "Cached entry" ["p"] none none ["f"] [] []]))) =
      (KBResult.mk [KBItem.mk "b" "Bundled entry" ["p"] none none ["f"] [] []]
        "bundled" none,
       KBState.mk (some (CachedKB.mk 0
          [KBItem.mk "c" "Cached entry" ["p"] none none ["f"] [] []]))) :=
  getKB_bundled_fallback 1800000000 none _ _
    (Or.inr ⟨_, rfl, Or.inr (by decide)⟩) (Or.inl rfl)

/-- C10: getKB writes the cache slot only on the path where the remote
fetch produced a non-empty list (and then marks the result as remote and
stores exactly that list at time now); whenever the result is not from the
remote source the state is returned untouched. -/
theorem getKB_cache_write_frame (now : Int) (remote : Option (List KBItem))
    (bundled : List KBItem) (st : KBState) :
    ((getKB now remote bundled st).2 ≠ st →
      ∃ l, remote = some l ∧ l ≠ [] ∧
        (getKB now remote bundled st).1.source = "remote" ∧
        (getKB now remote bundled st).2 = KBState.mk (some (CachedKB.mk now l))) ∧
    ((getKB now remote bundled st).1.source ≠ "remote" →
      (getKB now remote bundled st).2 = st) := by
  obtain ⟨stc⟩ := st
  cases stc with
  | none => exact getKBRemote_frame now remote bundled _
  | some c =>
    by_cases hcond : (decide (c.items ≠ []) && cacheFresh now c) = true
    · rw [Bool.and_eq_true] at hcond
      have hne2 : c.items ≠ [] := by simpa using hcond.1
      have he : getKB now remote bundled (KBState.mk (some c)) =
          (KBResult.mk c.items "cache" (some c.updatedAt), KBState.mk (some c)) := by
        simp [getKB, hne2, hcond.2]
      rw [he]
      exact ⟨fun h => absurd rfl h, fun _ => rfl⟩
    · have hcond2 : ¬(¬c.items = [] ∧ cacheFresh now c = true) := by
        simpa [Bool.and_eq_true] using hcond
      have he : getKB now remote bundled (KBState.mk (some c)) =
          getKBRemote now remote bundled (KBState.mk (some c)) := by
        simp [getKB, hcond2]
      rw [he]
      exact getKBRemote_frame now remote bundled _

/-- Witness for getKB_cache_write_frame: a bundled-path call leaves the
cache slot untouched. -/
theorem getKB_cache_write_frame_witness :
    (getKB 0 none [KBItem.mk "b" "Bundled entry" ["p"] none none ["f"] [] []]
      (KBState.mk none)).2 = KBState.mk none :=
  (getKB_cache_write_frame 0 none
    [KBItem.mk "b" "Bundled entry" ["p"] none none ["f"] [] []]
    (KBState.mk none)).2 (by decide)

end Oli
